import Mathlib

/-!
# Verification of the sBTC signer coordination core

This file gives a shallow embedding, in Lean 4, of the parts of the sBTC
signer that the specification talks about:

* the coordinator election function `coordinator_public_key` and its user
  `given_key_is_coordinator` (src/signer/src/transaction_coordinator.rs);
* the WSTS packet authentication function `authenticate_message`;
* the mempool fee assessment `assess_mempool_sweep_transaction_fees`;
* the pending-request gathering `get_pending_requests` / `get_btc_state`;
* the nonce bookkeeping of
  `construct_and_sign_stacks_sbtc_response_transactions`;
* the coordinator event loop `run`;
* the block observer: `next_blocks_to_process`, `run`,
  `extract_deposit_requests`, `extract_sbtc_transactions`
  (src/signer/src/block_observer.rs).

Machine integers are modelled as `Nat` with explicit reduction modulo
`2 ^ 32` (resp. `2 ^ 64`) where the source can overflow.  Fallible code is
modelled with `Except Error`.  A Rust panic is modelled as `Except.error`
with a dedicated error value.  External ports (bitcoin-core, the Stacks
node, storage) are modelled as records of pure functions; the functions
under test are then pure functions of the port values and their explicit
state.
-/

namespace SbtcSigner

/-! ## Bytes and 32-bit words

Bytes are natural numbers below 256; 32-bit words are natural numbers
below `2 ^ 32`.  All word arithmetic reduces modulo `2 ^ 32` exactly where
the Rust `u32` wraps. -/

/-- Reduce to a 32-bit word, the behaviour of `u32` wrapping arithmetic. -/
def w32 (x : Nat) : Nat := x % 4294967296

/-- Rotate a 32-bit word right by `n` bits (`u32::rotate_right`). -/
def rotr32 (n x : Nat) : Nat := (x >>> n) + ((x % 2 ^ n) <<< (32 - n))

/-- Bitwise complement of a 32-bit word. -/
def not32 (x : Nat) : Nat := 4294967295 - x

/-- Big-endian interpretation of a byte string as an unsigned integer;
this is what `usize::from_be_bytes` computes on its 8-byte input. -/
def beToNat (bs : List Nat) : Nat := bs.foldl (fun a b => a * 256 + b) 0

/-- Big-endian byte serialisation of `n` into `len` bytes. -/
def natToBeBytes (n len : Nat) : List Nat :=
  (List.range len).map (fun i => (n >>> (8 * (len - 1 - i))) % 256)

/-- Split a list into consecutive chunks of size `sz` (`sz > 0`), with
explicit fuel for structural termination. -/
def chunksGo (sz : Nat) : Nat → List Nat → List (List Nat)
  | 0, _ => []
  | _, [] => []
  | fuel + 1, l => l.take sz :: chunksGo sz fuel (l.drop sz)

/-- Split a list into consecutive chunks of size `sz`. -/
def chunks (sz : Nat) (l : List Nat) : List (List Nat) :=
  chunksGo sz l.length l

/-! ## SHA-256

The coordinator election hashes the bitcoin chain tip with SHA-256 (the
`sha2` crate).  The implementation below is the standard FIPS 180-4
algorithm on byte lists. -/

/-- The SHA-256 round constants. -/
def sha256K : List Nat :=
  [1116352408, 1899447441, 3049323471, 3921009573, 961987163,
   1508970993, 2453635748, 2870763221, 3624381080, 310598401,
   607225278, 1426881987, 1925078388, 2162078206, 2614888103,
   3248222580, 3835390401, 4022224774, 264347078, 604807628,
   770255983, 1249150122, 1555081692, 1996064986, 2554220882,
   2821834349, 2952996808, 3210313671, 3336571891, 3584528711,
   113926993, 338241895, 666307205, 773529912, 1294757372,
   1396182291, 1695183700, 1986661051, 2177026350, 2456956037,
   2730485921, 2820302411, 3259730800, 3345764771, 3516065817,
   3600352804, 4094571909, 275423344, 430227734, 506948616,
   659060556, 883997877, 958139571, 1322822218, 1537002063,
   1747873779, 1955562222, 2024104815, 2227730452, 2361852424,
   2428436474, 2756734187, 3204031479, 3329325298]

/-- The SHA-256 initial hash value. -/
def sha256H0 : List Nat :=
  [1779033703, 3144134277, 1013904242, 2773480762,
   1359893119, 2600822924, 528734635, 1541459225]

/-- SHA-256 small sigma 0. -/
def ssig0 (x : Nat) : Nat := rotr32 7 x ^^^ rotr32 18 x ^^^ (x >>> 3)

/-- SHA-256 small sigma 1. -/
def ssig1 (x : Nat) : Nat := rotr32 17 x ^^^ rotr32 19 x ^^^ (x >>> 10)

/-- SHA-256 big sigma 0. -/
def bsig0 (x : Nat) : Nat := rotr32 2 x ^^^ rotr32 13 x ^^^ rotr32 22 x

/-- SHA-256 big sigma 1. -/
def bsig1 (x : Nat) : Nat := rotr32 6 x ^^^ rotr32 11 x ^^^ rotr32 25 x

/-- SHA-256 choice function. -/
def sha256Ch (e f g : Nat) : Nat := (e &&& f) ^^^ (not32 e &&& g)

/-- SHA-256 majority function. -/
def sha256Maj (a b c : Nat) : Nat := (a &&& b) ^^^ (a &&& c) ^^^ (b &&& c)

/-- The next word of the SHA-256 message schedule, given the schedule
built so far. -/
def sha256NextW (w : List Nat) : Nat :=
  let i := w.length
  w32 (ssig1 (w.getD (i - 2) 0) + w.getD (i - 7) 0 +
       ssig0 (w.getD (i - 15) 0) + w.getD (i - 16) 0)

/-- Extend the 16-word message schedule by `k` further words. -/
def sha256ExtendW : List Nat → Nat → List Nat
  | w, 0 => w
  | w, k + 1 => sha256ExtendW (w ++ [sha256NextW w]) k

/-- One SHA-256 compression round: the working state is the list
`[a, b, c, d, e, f, g, h]` and `wk` is the pair of the schedule word and
the round constant. -/
def sha256Round (st : List Nat) (wk : Nat × Nat) : List Nat :=
  match st with
  | [a, b, c, d, e, f, g, h] =>
    let t1 := w32 (h + bsig1 e + sha256Ch e f g + wk.2 + wk.1)
    let t2 := w32 (bsig0 a + sha256Maj a b c)
    [w32 (t1 + t2), a, b, c, w32 (d + t1), e, f, g]
  | st => st

/-- Process one 64-byte block, updating the eight-word hash state. -/
def sha256Block (st : List Nat) (block : List Nat) : List Nat :=
  let w16 := (chunks 4 block).map beToNat
  let w := sha256ExtendW w16 48
  let out := (w.zip sha256K).foldl sha256Round st
  List.zipWith (fun x y => w32 (x + y)) st out

/-- SHA-256 padding: append `0x80`, zero bytes up to 56 mod 64, and the
64-bit big-endian bit length. -/
def sha256Pad (msg : List Nat) : List Nat :=
  let L := msg.length
  let k := (119 - L % 64) % 64
  msg ++ [128] ++ List.replicate k 0 ++ natToBeBytes (8 * L) 8

/-- SHA-256 of a byte string, as a 32-byte string. -/
def sha256 (msg : List Nat) : List Nat :=
  ((chunks 64 (sha256Pad msg)).foldl sha256Block sha256H0).flatMap
    (fun x => natToBeBytes x 4)

/- The FIPS 180-4 test vector for the empty message, checking that the
embedded hash is genuine SHA-256. -/
set_option maxRecDepth 100000 in
example : sha256 [] =
    [0xe3, 0xb0, 0xc4, 0x42, 0x98, 0xfc, 0x1c, 0x14, 0x9a, 0xfb, 0xf4, 0xc8,
     0x99, 0x6f, 0xb9, 0x24, 0x27, 0xae, 0x41, 0xe4, 0x64, 0x9b, 0x93, 0x4c,
     0xa4, 0x95, 0x99, 0x1b, 0x78, 0x52, 0xb8, 0x55] := by decide

/- The FIPS 180-4 test vector for the message "abc". -/
set_option maxRecDepth 100000 in
example : sha256 [0x61, 0x62, 0x63] =
    [0xba, 0x78, 0x16, 0xbf, 0x8f, 0x01, 0xcf, 0xea, 0x41, 0x41, 0x40, 0xde,
     0x5d, 0xae, 0x22, 0x23, 0xb0, 0x03, 0x61, 0xa3, 0x96, 0x17, 0x7a, 0x9c,
     0xb4, 0x10, 0xff, 0x61, 0xf2, 0x00, 0x15, 0xad] := by decide

/-! ## Errors and panics

One error type covers all the fallible paths appearing in the embedded
functions.  A Rust panic (here: only the remainder-by-zero in
`coordinator_public_key` on an empty signer set) is modelled as a
distinguished error value. -/

/-- Errors of the embedded functions (`crate::error::Error`), plus a
value for the Rust panic raised by a remainder-by-zero. -/
inductive Error
  | panicRemainderByZero
  | missingBlock
  | noChainTip
  | missingSignerUtxo
  | typeConversion
  | transactionFeeLookup
  | signalSend
  deriving DecidableEq, Repr

/-- Decidable equality for `Except`, so that results of the embedded
fallible functions can be evaluated on concrete inputs. -/
instance {ε α : Type} [DecidableEq ε] [DecidableEq α] : DecidableEq (Except ε α) :=
  fun a b =>
    match a, b with
    | .ok x, .ok y =>
      if h : x = y then .isTrue (by rw [h]) else .isFalse (fun hc => h (Except.ok.inj hc))
    | .error x, .error y =>
      if h : x = y then .isTrue (by rw [h]) else .isFalse (fun hc => h (Except.error.inj hc))
    | .ok _, .error _ => .isFalse (fun hc => Except.noConfusion hc)
    | .error _, .ok _ => .isFalse (fun hc => Except.noConfusion hc)

/-! ## Coordinator election

`coordinator_public_key` in src/signer/src/transaction_coordinator.rs.
A `PublicKey` is ordered by its compressed 33-byte serialisation, so we
model it as its byte string; a `BTreeSet<PublicKey>` is modelled by its
iteration sequence, a strictly ascending (lexicographic) list. -/

/-- A secp256k1 public key, modelled by its serialised byte string; the
`Ord` instance used by `BTreeSet` is lexicographic on these bytes. -/
abbrev PublicKey := List Nat

/-- Strict lexicographic byte-string order (the Rust `Ord` on serialised
public keys). -/
def bytesLt : List Nat → List Nat → Bool
  | _, [] => false
  | [], _ :: _ => true
  | a :: as, b :: bs => if a < b then true else if b < a then false else bytesLt as bs

/-- The slice accessor `<[u8; 32]>::first_chunk::<N>`: the first `n` elements when the list
is at least that long, `none` otherwise. -/
def firstChunk (n : Nat) (l : List Nat) : Option (List Nat) :=
  if n ≤ l.length then some (l.take n) else none

/-- The machine word size in bytes: the sources target 64-bit systems, so
`usize` is 8 bytes wide. -/
def usizeBytes : Nat := 8

/-- The election function `coordinator_public_key`: hash the bitcoin chain tip with SHA-256,
read the first machine-word-sized prefix of the digest as a big-endian
`usize`, and pick the signer at that index modulo the signer-set size in
the ascending iteration order of the set.  On an empty signer set the
Rust expression `index % num_signers` is a remainder by zero, a panic,
modelled as `Error.panicRemainderByZero`. -/
def coordinator_public_key (bitcoin_chain_tip : List Nat)
    (signer_public_keys : List PublicKey) : Except Error (Option PublicKey) :=
  let digest := sha256 bitcoin_chain_tip
  match firstChunk usizeBytes digest with
  | none => .ok none
  | some chunk =>
    let index := beToNat chunk
    let num_signers := signer_public_keys.length
    if num_signers = 0 then .error .panicRemainderByZero
    else .ok signer_public_keys[index % num_signers]?

/-- The predicate `given_key_is_coordinator`: whether the given key is the elected
coordinator for the chain tip.  The Rust function compares the option
returned by `coordinator_public_key` with `Some(pub_key)`; a panic inside
`coordinator_public_key` propagates. -/
def given_key_is_coordinator (pub_key : PublicKey) (bitcoin_chain_tip : List Nat)
    (signer_public_keys : List PublicKey) : Except Error Bool :=
  (coordinator_public_key bitcoin_chain_tip signer_public_keys).map
    (fun r => r == some pub_key)

/-! ## WSTS packet authentication

`authenticate_message` in src/signer/src/transaction_coordinator.rs.
Only the shape of `wsts::net::Message` matters: five coordinator-role
variants without a signer id and five signer-role variants carrying a
`signer_id`.  The `hashbrown::HashMap<u32, Point>` of registered public
keys is modelled as an association list; a `p256k1` point converted from
a sender public key is modelled by that key itself (the conversion is
injective). -/

/-- The ten variants of `wsts::net::Message`, with payloads reduced to
the fields `authenticate_message` inspects. -/
inductive WstsNetMessage
  | dkgBegin
  | dkgPrivateBegin
  | dkgEndBegin
  | nonceRequest
  | signatureShareRequest
  | dkgPublicShares (signer_id : Nat)
  | dkgPrivateShares (signer_id : Nat)
  | dkgEnd (signer_id : Nat)
  | nonceResponse (signer_id : Nat)
  | signatureShareResponse (signer_id : Nat)
  deriving DecidableEq, Repr

/-- The closure `check_signer_public_key` of `authenticate_message`: the
sender is accepted when the key map has an entry for `signer_id` equal to
the sender's key; a missing entry or a different key is rejected. -/
def check_signer_public_key (public_keys : List (Nat × PublicKey))
    (public_key_point : PublicKey) (signer_id : Nat) : Bool :=
  match public_keys.lookup signer_id with
  | some signer_public_key => public_key_point == signer_public_key
  | none => false

/-- The filter `authenticate_message`: coordinator-role packets are accepted exactly
when the sender is the coordinator; signer-role packets go through
`check_signer_public_key` on their `signer_id`. -/
def authenticate_message (msg : WstsNetMessage) (public_keys : List (Nat × PublicKey))
    (public_key_point : PublicKey) (sender_is_coordinator : Bool) : Bool :=
  match msg with
  | .dkgBegin => sender_is_coordinator
  | .dkgPrivateBegin => sender_is_coordinator
  | .dkgEndBegin => sender_is_coordinator
  | .nonceRequest => sender_is_coordinator
  | .signatureShareRequest => sender_is_coordinator
  | .dkgPublicShares signer_id => check_signer_public_key public_keys public_key_point signer_id
  | .dkgPrivateShares signer_id => check_signer_public_key public_keys public_key_point signer_id
  | .dkgEnd signer_id => check_signer_public_key public_keys public_key_point signer_id
  | .nonceResponse signer_id => check_signer_public_key public_keys public_key_point signer_id
  | .signatureShareResponse signer_id =>
      check_signer_public_key public_keys public_key_point signer_id

/-- Whether a `wsts::net::Message` variant is one of the five
coordinator-role messages. -/
def isCoordinatorRole : WstsNetMessage → Bool
  | .dkgBegin => true
  | .dkgPrivateBegin => true
  | .dkgEndBegin => true
  | .nonceRequest => true
  | .signatureShareRequest => true
  | _ => false

/-- The `signer_id` carried by a signer-role message, if any. -/
def signerIdOf : WstsNetMessage → Option Nat
  | .dkgPublicShares signer_id => some signer_id
  | .dkgPrivateShares signer_id => some signer_id
  | .dkgEnd signer_id => some signer_id
  | .nonceResponse signer_id => some signer_id
  | .signatureShareResponse signer_id => some signer_id
  | _ => none

/-! ## Mempool fee assessment

The method `assess_mempool_sweep_transaction_fees` of the coordinator in
src/signer/src/transaction_coordinator.rs.  The bitcoin port
(`crate::bitcoin::BitcoinInteract`, whose implementation is outside the
sources at hand) is modelled as a record of pure functions describing one
mempool view.  `f64` fee rates are modelled exactly, as rationals. -/

/-- A bitcoin transaction id, a 32-byte string; the Rust `Ord` on `Txid`
is lexicographic on the bytes. -/
abbrev Txid := List Nat

/-- A transaction outpoint: a txid and an output index (`vout`). -/
abbrev OutPoint := Txid × Nat

/-- The fee-and-size answer of the bitcoin port's
`get_transaction_fee(txid, hint)`. -/
structure TransactionFees where
  fee : Nat
  vsize : Nat
  deriving DecidableEq, Repr

/-- The summary `crate::bitcoin::utxo::Fees { total, rate }`; the `f64`
rate is modelled as an exact rational. -/
structure Fees where
  total : Nat
  rate : ℚ
  deriving DecidableEq, Repr

/-- The signer federation's single UTXO
(`crate::bitcoin::utxo::SignerUtxo`). -/
structure SignerUtxo where
  outpoint : OutPoint
  amount : Nat
  deriving DecidableEq, Repr

/-- One mempool view of the bitcoin port: the mempool transactions
spending a given outpoint, the (fallible) fee lookup, the mempool
descendants of a transaction, and the current fee-rate estimate. -/
structure BitcoinClient where
  find_mempool_transactions_spending_output : OutPoint → List Txid
  get_transaction_fee : Txid → Except Error TransactionFees
  find_mempool_descendants : Txid → List Txid
  estimate_fee_rate : ℚ

/-- One step of `Iterator::max_by_key(|(_, fees)| fees.fee)`: keep the
later element when the fees tie. -/
def maxPairStep (acc : Option (Txid × TransactionFees))
    (x : Txid × TransactionFees) : Option (Txid × TransactionFees) :=
  match acc with
  | none => some x
  | some a => if a.2.fee ≤ x.2.fee then some x else some a

/-- The root selection performed by the source:
`Iterator::max_by_key(|(_, fees)| fees.fee)`, which returns the LAST
element among those with the maximal fee, in the order the iterator
yields them. -/
def maxByFeeLast (l : List (Txid × TransactionFees)) :
    Option (Txid × TransactionFees) :=
  l.foldl maxPairStep none

/-- The fee assessment `assess_mempool_sweep_transaction_fees`: find the
mempool transactions spending the signer UTXO's outpoint; if none,
return `none`; otherwise fetch their fees, take the max-fee root, add the
fees and vsizes of its mempool descendants, and return the total and the
total-over-vsize rate. -/
def assess_mempool_sweep_transaction_fees (client : BitcoinClient)
    (signer_utxo : SignerUtxo) : Except Error (Option Fees) := do
  let mempool_txs_spending_utxo :=
    client.find_mempool_transactions_spending_output signer_utxo.outpoint
  if mempool_txs_spending_utxo.isEmpty then
    return none
  let txs_with_fees ← mempool_txs_spending_utxo.mapM
    (fun txid => (client.get_transaction_fee txid).map (fun fee => (txid, fee)))
  match maxByFeeLast txs_with_fees with
  | none => return none
  | some (best_sweep_root_txid, fees) => do
    let descendant_txids := client.find_mempool_descendants best_sweep_root_txid
    let descendant_fees ← descendant_txids.mapM client.get_transaction_fee
    let (total_fees, total_vsize) := descendant_fees.foldl
      (fun acc fees => (acc.1 + fees.fee, acc.2 + fees.vsize))
      (fees.fee, fees.vsize)
    return some { total := total_fees, rate := (total_fees : ℚ) / (total_vsize : ℚ) }

/-- One step of the last-argmax selection over bare txids. -/
def argmaxStep (key : Txid → Nat) (acc : Option Txid) (t : Txid) : Option Txid :=
  match acc with
  | none => some t
  | some a => if key a ≤ key t then some t else some a

/-- The last element of a list maximising a key, the selection
`max_by_key` makes; stated over bare txids for the amended claim C2. -/
def lastArgmaxBy (key : Txid → Nat) (l : List Txid) : Option Txid :=
  l.foldl (argmaxStep key) none

/-- The fee-and-vsize summary of a sweep package rooted at `root`: the
sums of the fees and vsizes over the root and its mempool descendants,
with the rate their exact quotient.  This follows the specification's
words for step 5 of the fee assessment. -/
def sweepPackageFees (client : BitcoinClient) (feeOf : Txid → TransactionFees)
    (root : Txid) : Fees :=
  let ds := client.find_mempool_descendants root
  let total := (feeOf root).fee + (ds.map (fun t => (feeOf t).fee)).sum
  let vsize := (feeOf root).vsize + (ds.map (fun t => (feeOf t).vsize)).sum
  { total := total, rate := (total : ℚ) / (vsize : ℚ) }

/-- Root selection as claim C2 words it: the highest fee, ties broken by
lexicographic txid order.  This definition follows the claim, not the
source.  With `smallest = true` the lexicographically smallest tied txid
wins, otherwise the largest (the claim does not fix the direction, so
both readings are covered). -/
def claimRootC2 (smallest : Bool) (l : List (Txid × TransactionFees)) :
    Option (Txid × TransactionFees) :=
  l.foldl
    (fun acc x =>
      match acc with
      | none => some x
      | some a =>
        if a.2.fee < x.2.fee then some x
        else if x.2.fee < a.2.fee then some a
        else if (if smallest then bytesLt x.1 a.1 else bytesLt a.1 x.1) then some x
        else some a)
    none

/-- The fee assessment as claim C2 words it, differing from the source
only in the tie-break of the root selection. -/
def assess_fees_claimC2 (smallest : Bool) (client : BitcoinClient)
    (signer_utxo : SignerUtxo) : Except Error (Option Fees) := do
  let spending := client.find_mempool_transactions_spending_output signer_utxo.outpoint
  if spending.isEmpty then
    return none
  let txs_with_fees ← spending.mapM
    (fun txid => (client.get_transaction_fee txid).map (fun fee => (txid, fee)))
  match claimRootC2 smallest txs_with_fees with
  | none => return none
  | some (root, _) => do
    let descendant_fees ← (client.find_mempool_descendants root).mapM
      client.get_transaction_fee
    let rootFees ← client.get_transaction_fee root
    let total := rootFees.fee + (descendant_fees.map (fun f => f.fee)).sum
    let vsize := rootFees.vsize + (descendant_fees.map (fun f => f.vsize)).sum
    return some { total := total, rate := (total : ℚ) / (vsize : ℚ) }

/-! ## Signer BTC state and pending requests

The methods `get_btc_state` and `get_pending_requests` of the
coordinator.  The storage queries (`crate::storage::DbRead`) for a fixed
chain tip, context window and threshold are modelled as plain record
fields holding their results. -/

/-- A pending accepted deposit request row, reduced to its key. -/
structure DepositRequestModel where
  txid : Txid
  output_index : Nat
  deriving DecidableEq, Repr

/-- A pending accepted withdrawal request row, reduced to its key. -/
structure WithdrawalRequestModel where
  request_id : Nat
  deriving DecidableEq, Repr

/-- A signer vote bitmap. -/
abbrev Votes := List Bool

/-- The storage read-port of the coordinator, specialised to one chain
tip, context window and threshold: the two pending-accepted request
lists, the vote lookups, and the signer UTXO (if any). -/
structure CoordStorage where
  pending_accepted_deposit_requests : List DepositRequestModel
  pending_accepted_withdrawal_requests : List WithdrawalRequestModel
  deposit_request_signer_votes : DepositRequestModel → Votes
  withdrawal_request_signer_votes : WithdrawalRequestModel → Votes
  signer_utxo : Option SignerUtxo

/-- A deposit request together with its votes
(`utxo::DepositRequest::from_model`). -/
structure DepositRequestWithVotes where
  request : DepositRequestModel
  votes : Votes
  deriving DecidableEq, Repr

/-- A withdrawal request together with its votes
(`utxo::WithdrawalRequest::from_model`). -/
structure WithdrawalRequestWithVotes where
  request : WithdrawalRequestModel
  votes : Votes
  deriving DecidableEq, Repr

/-- The signer state `utxo::SignerBtcState`. -/
structure SignerBtcState where
  fee_rate : ℚ
  utxo : SignerUtxo
  public_key : List Nat
  last_fees : Option Fees
  magic_bytes : List Nat
  deriving DecidableEq, Repr

/-- The request bundle `utxo::SbtcRequests`. -/
structure SbtcRequests where
  deposits : List DepositRequestWithVotes
  withdrawals : List WithdrawalRequestWithVotes
  signer_state : SignerBtcState
  accept_threshold : Nat
  num_signers : Nat
  deriving DecidableEq, Repr

/-- The state builder `get_btc_state`: the market fee rate, the signer
UTXO (an error when storage has none), the mempool fee assessment, and
the placeholder magic bytes `b"T3"`. -/
def get_btc_state (client : BitcoinClient) (storage : CoordStorage)
    (aggregate_key : List Nat) : Except Error SignerBtcState :=
  match storage.signer_utxo with
  | none => .error .missingSignerUtxo
  | some utxo => do
    let last_fees ← assess_mempool_sweep_transaction_fees client utxo
    .ok { fee_rate := client.estimate_fee_rate
          utxo := utxo
          public_key := aggregate_key
          last_fees := last_fees
          magic_bytes := [84, 51] }

/-- The request gatherer `get_pending_requests`: read the pending
accepted deposit and withdrawal requests, attach their vote bitmaps,
convert the signer-set size (`usize::try_into`, whose target width is
`u16` here), return `none` when both request lists are empty, and
otherwise bundle them with a freshly computed `SignerBtcState`. -/
def get_pending_requests (client : BitcoinClient) (storage : CoordStorage)
    (aggregate_key : List Nat) (signer_public_keys : List PublicKey)
    (threshold : Nat) : Except Error (Option SbtcRequests) := do
  let pending_deposit_requests := storage.pending_accepted_deposit_requests
  let pending_withdraw_requests := storage.pending_accepted_withdrawal_requests
  let deposits := pending_deposit_requests.map
    (fun req => { request := req
                  votes := storage.deposit_request_signer_votes req
                  : DepositRequestWithVotes })
  let withdrawals := pending_withdraw_requests.map
    (fun req => { request := req
                  votes := storage.withdrawal_request_signer_votes req
                  : WithdrawalRequestWithVotes })
  let num_signers ←
    if signer_public_keys.length < 65536 then Except.ok signer_public_keys.length
    else Except.error Error.typeConversion
  if deposits.isEmpty && withdrawals.isEmpty then
    return none
  let signer_state ← get_btc_state client storage aggregate_key
  return some { deposits := deposits
                withdrawals := withdrawals
                signer_state := signer_state
                accept_threshold := threshold
                num_signers := num_signers }

/-! ## Nonce bookkeeping of the per-tick Stacks transaction loop

The loop body of `construct_and_sign_stacks_sbtc_response_transactions`.
Modelled from the spec: the `SignerWallet` of `crate::stacks::wallet`
(not under src/) caches a nonce, `set_nonce` overwrites it, and building
a multisig transaction with `MultisigTx::new_tx` consumes the current
nonce, incrementing the cached value by one.  The two fallible phases of
each loop iteration (constructing the sign request, then signing and
submitting it) are abstracted to their outcomes. -/

/-- The cached-nonce view of the `SignerWallet`.  Modelled from the spec:
the wallet source is not under src/; per the specification the wallet
increments its cached nonce for each transaction it creates. -/
structure SignerWallet where
  nonce : Nat
  deriving DecidableEq, Repr

/-- Consume one nonce when building a multisig transaction
(`MultisigTx::new_tx`): returns the updated wallet and the origin nonce
the transaction uses. -/
def SignerWallet.new_tx (w : SignerWallet) : SignerWallet × Nat :=
  ({ nonce := w.nonce + 1 }, w.nonce)

/-- One swept deposit request of the per-tick loop, abstracted to the
outcomes of its two fallible phases: whether
`construct_deposit_stacks_sign_request` succeeds (it fails before any
nonce is consumed), and whether `process_sign_request` (sign and submit)
succeeds. -/
structure SweptRequestOutcome where
  construct_ok : Bool
  process_ok : Bool
  deriving DecidableEq, Repr

/-- One iteration of the loop body: a construction failure `continue`s
with the wallet untouched; a successful construction consumes a nonce;
a sign-or-submit failure then runs
`wallet.set_nonce(wallet.get_nonce().saturating_sub(1))`.  Returns the
wallet and whether a transaction was successfully submitted. -/
def handle_swept_deposit (w : SignerWallet) (req : SweptRequestOutcome) :
    SignerWallet × Bool :=
  if !req.construct_ok then (w, false)
  else
    let (w2, _origin_nonce) := w.new_tx
    if req.process_ok then (w2, true)
    else ({ nonce := w2.nonce - 1 }, false)

/-- The per-tick loop of
`construct_and_sign_stacks_sbtc_response_transactions`: start from the
account nonce fetched once from the Stacks node, handle each swept
deposit request in turn, and count the successful submissions.  (When
the request list is empty the source returns before fetching the nonce;
the wallet is then never created, which this model renders as the
unchanged pair.) -/
def construct_and_sign_stacks_sbtc_response_transactions
    (account_nonce : Nat) (reqs : List SweptRequestOutcome) :
    SignerWallet × Nat :=
  reqs.foldl
    (fun acc req =>
      let (w, ok) := handle_swept_deposit acc.1 req
      (w, acc.2 + if ok then 1 else 0))
    ({ nonce := account_nonce }, 0)

/-! ## The coordinator event loop

The method `run` of `TxCoordinatorEventLoop`
(src/signer/src/transaction_coordinator.rs, lines 194-224), together
with its stream filter `run_loop_message_filter`.  The incoming signal
stream is a list (its end models stream closure); the results of the
`process_new_blocks` calls and of the `Context::signal` calls emitting
`TenureCompleted` (the latter implemented outside src/ and returning a
`Result` that `run` propagates with `?`) are supplied as lists. -/

/-- The `SignerSignal` variants, reduced to what the coordinator loop
distinguishes. -/
inductive CoordSignal
  | shutdown
  | p2pPublish
  | newRequestsHandled
  | otherEvent
  deriving DecidableEq, Repr

/-- The stream filter `run_loop_message_filter`: the loop subscribes
only to `NewRequestsHandled` events and the `Shutdown` command. -/
def run_loop_message_filter : CoordSignal → Bool
  | .newRequestsHandled => true
  | .shutdown => true
  | _ => false

/-- How the coordinator loop ended. -/
inductive RunExit
  | streamClosed
  | shutdownCommand
  deriving DecidableEq, Repr

/-- The body of `TxCoordinatorEventLoop::run` on the filtered stream:
for each `NewRequestsHandled` the loop calls `process_new_blocks`
(ignoring its result beyond logging), then emits one `TenureCompleted`
signal, propagating a signal-send failure with `?`.  Returns the number
of `TenureCompleted` signals delivered and the loop outcome. -/
def coordinatorRunLoop :
    List CoordSignal → List (Except Error Unit) → List (Except Error Unit) →
    Nat × Except Error RunExit
  | [], _, _ => (0, .ok .streamClosed)
  | .shutdown :: _, _, _ => (0, .ok .shutdownCommand)
  | .p2pPublish :: rest, ps, ss => coordinatorRunLoop rest ps ss
  | .otherEvent :: rest, ps, ss => coordinatorRunLoop rest ps ss
  | .newRequestsHandled :: rest, ps, ss =>
    let _process_result := ps.headD (.ok ())
    match ss.headD (.ok ()) with
    | .error e => (0, .error e)
    | .ok () =>
      let (n, r) := coordinatorRunLoop rest ps.tail ss.tail
      (n + 1, r)

/-- The event loop `run`: apply the stream filter, then run the loop
body. -/
def coordinatorRun (stream : List CoordSignal) (ps ss : List (Except Error Unit)) :
    Nat × Except Error RunExit :=
  coordinatorRunLoop (stream.filter run_loop_message_filter) ps ss

/-! ## The block observer

src/signer/src/block_observer.rs.  Block hashes are opaque identifiers;
a block carries its hash, parent hash, BIP34 height and transactions; a
transaction carries its txid, its output script-pubkeys and its opaque
consensus encoding. -/

/-- An opaque 32-byte bitcoin block hash. -/
abbrev BlockHash := Nat

/-- An output script-pubkey, a byte string. -/
abbrev Script := List Nat

/-- A bitcoin transaction, reduced to the fields the observer reads:
its id, the script-pubkey of each output, and its consensus (BIP-144)
encoding, opaque here. -/
structure TxModel where
  txid : Txid
  outputs : List Script
  bytes : List Nat
  deriving DecidableEq, Repr

/-- A bitcoin block, reduced to the fields the observer reads. -/
structure BlockModel where
  hash : BlockHash
  parent : BlockHash
  height : Nat
  txdata : List TxModel
  deriving DecidableEq, Repr

/-- A persisted bitcoin block row (`model::BitcoinBlock`). -/
structure DbBitcoinBlock where
  block_hash : BlockHash
  block_height : Nat
  parent_hash : BlockHash
  deriving DecidableEq, Repr

/-- The transaction type tag of a persisted transaction row. -/
inductive TransactionType
  | sbtcTransaction
  deriving DecidableEq, Repr

/-- A persisted transaction row (`model::Transaction`). -/
structure DbTransaction where
  txid : Txid
  tx : List Nat
  tx_type : TransactionType
  block_hash : BlockHash
  deriving DecidableEq, Repr

/-- A persisted deposit request row (`model::DepositRequest`), reduced
to its key, the outpoint. -/
structure DbDepositRequest where
  txid : Txid
  output_index : Nat
  deriving DecidableEq, Repr

/-- A validated deposit held by the observer (`block_observer::Deposit`),
reduced to the fields the embedded functions read: the deposit
transaction and the validated outpoint of its `DepositInfo`. -/
structure Deposit where
  tx : TxModel
  outpoint : OutPoint
  deriving DecidableEq, Repr

/-- The observer's view of persistent storage. -/
structure ObserverStorage where
  bitcoin_blocks : List DbBitcoinBlock
  deposit_requests : List DbDepositRequest
  sbtc_transactions : List DbTransaction
  stacks_headers : List Nat
  signers_script_pubkeys : List Script
  deriving DecidableEq, Repr

/-- The observer state: storage plus the in-memory
`HashMap<Txid, Vec<Deposit>>` of unconfirmed deposit requests, modelled
as an association list. -/
structure ObserverState where
  storage : ObserverStorage
  deposit_requests : List (Txid × List Deposit)
  deriving DecidableEq, Repr

/-- The bitcoin port as the observer uses it: fetching a block by
hash. -/
structure ObserverBitcoinClient where
  get_block : BlockHash → Option BlockModel

/-- Membership test against the bitcoin block table
(`have_already_processed_block`). -/
def have_already_processed_block (st : ObserverStorage) (block_hash : BlockHash) :
    Bool :=
  st.bitcoin_blocks.any (fun b => b.block_hash == block_hash)

/-- The walk-back loop of `next_blocks_to_process`: for at most `horizon`
steps, stop at a block already in storage, otherwise fetch the block
(an error when the port does not have it), record it, and continue from
its parent. -/
def next_blocks_to_process_go (client : ObserverBitcoinClient)
    (st : ObserverStorage) :
    Nat → BlockHash → List BlockModel → Except Error (List BlockModel)
  | 0, _, blocks => .ok blocks
  | fuel + 1, block_hash, blocks =>
    if have_already_processed_block st block_hash then .ok blocks
    else
      match client.get_block block_hash with
      | none => .error .missingBlock
      | some block =>
        next_blocks_to_process_go client st fuel block.parent (blocks ++ [block])

/-- The ancestor collection `next_blocks_to_process`: walk back from the
new tip, then reverse to chronological (parent-first) order. -/
def next_blocks_to_process (client : ObserverBitcoinClient)
    (st : ObserverStorage) (horizon : Nat) (block_hash : BlockHash) :
    Except Error (List BlockModel) :=
  (next_blocks_to_process_go client st horizon block_hash []).map List.reverse

/-- Whether any output of the transaction pays to one of the signers'
script-pubkeys. -/
def tx_spends_to_signers (signer_script_pubkeys : List Script) (tx : TxModel) :
    Bool :=
  tx.outputs.any (fun tx_out => signer_script_pubkeys.contains tx_out)

/-- The scan `extract_sbtc_transactions`: keep the transactions with an
output paying to a stored signer script-pubkey, encode each and persist
it bound to the containing block's hash. -/
def extract_sbtc_transactions (st : ObserverStorage) (block_hash : BlockHash)
    (txs : List TxModel) : ObserverStorage :=
  let sbtc_txs := (txs.filter (tx_spends_to_signers st.signers_script_pubkeys)).map
    (fun tx => { txid := tx.txid
                 tx := tx.bytes
                 tx_type := TransactionType.sbtcTransaction
                 block_hash := block_hash
                 : DbTransaction })
  { st with sbtc_transactions := st.sbtc_transactions ++ sbtc_txs }

/-- Persist a bitcoin block row (`DbWrite::write_bitcoin_block`); the
table is keyed by the block hash, so re-writing a present hash is a
no-op. -/
def write_bitcoin_block_row (st : ObserverStorage) (block : BlockModel) :
    ObserverStorage :=
  if st.bitcoin_blocks.any (fun b => b.block_hash == block.hash) then st
  else
    { st with bitcoin_blocks := st.bitcoin_blocks ++
        [{ block_hash := block.hash
           block_height := block.height
           parent_hash := block.parent }] }

/-- The observer's `write_bitcoin_block`: persist the block row, then
extract the sBTC transactions of the block (in this order, for the
foreign-key constraint on the block table). -/
def write_bitcoin_block (st : ObserverStorage) (block : BlockModel) :
    ObserverStorage :=
  extract_sbtc_transactions (write_bitcoin_block_row st block) block.hash
    block.txdata

/-- Remove the entry with the given key from the association list,
returning its value (the behaviour of `HashMap::remove` when keys are
unduplicated). -/
def removeKey (m : List (Txid × List Deposit)) (k : Txid) :
    Option (List Deposit) × List (Txid × List Deposit) :=
  match m with
  | [] => (none, [])
  | (k2, v) :: rest =>
    if k2 = k then (some v, rest)
    else ((removeKey rest k).1, (k2, v) :: (removeKey rest k).2)

/-- The drain of `extract_deposit_requests`: for each transaction in
order, remove the deposit list held under its txid (if any) and collect
the removed deposits. -/
def drainDeposits :
    List TxModel → List (Txid × List Deposit) →
    List Deposit × List (Txid × List Deposit)
  | [], m => ([], m)
  | tx :: txs, m =>
    ((removeKey m tx.txid).1.getD [] ++
       (drainDeposits txs (removeKey m tx.txid).2).1,
     (drainDeposits txs (removeKey m tx.txid).2).2)

/-- Convert a validated deposit into its persisted row
(`model::DepositRequest::from`), keyed by the deposit's outpoint. -/
def depositRequestRow (d : Deposit) : DbDepositRequest :=
  { txid := d.outpoint.1, output_index := d.outpoint.2 }

/-- Persist deposit request rows (`DbWrite::write_deposit_requests`);
the table is keyed by the outpoint and writes are idempotent, so
re-writing a present outpoint is a no-op. -/
def write_deposit_requests (st : ObserverStorage)
    (rows : List DbDepositRequest) : ObserverStorage :=
  rows.foldl
    (fun st row =>
      if st.deposit_requests.any
          (fun r => r.txid == row.txid && r.output_index == row.output_index)
      then st
      else { st with deposit_requests := st.deposit_requests ++ [row] })
    st

/-- The drain-and-persist `extract_deposit_requests`: remove from the
in-memory map every entry whose txid occurs in the block's transactions
and persist the removed deposits as rows keyed by their outpoints. -/
def extract_deposit_requests (state : ObserverState) (txs : List TxModel) :
    ObserverState :=
  { storage := write_deposit_requests state.storage
      ((drainDeposits txs state.deposit_requests).1.map depositRequestRow)
    deposit_requests := (drainDeposits txs state.deposit_requests).2 }

/-- Modelled from the spec: the Stacks side of `process_bitcoin_block`
(`get_tenure_info` and `crate::stacks::api::fetch_unknown_ancestors`,
not under src/) yields a list of Stacks block ids which are persisted to
the Stacks tables only; the bitcoin block, deposit-request and
sBTC-transaction tables are untouched. -/
def write_stacks_blocks (st : ObserverStorage) (blocks : List Nat) :
    ObserverStorage :=
  { st with stacks_headers := st.stacks_headers ++ blocks }

/-- The per-block step `process_bitcoin_block`: persist the Stacks
tenure blocks, persist the bitcoin block (with its sBTC transactions),
then drain and persist the matching deposit requests. -/
def process_bitcoin_block (stacks_tenure : List Nat) (state : ObserverState)
    (block : BlockModel) : ObserverState :=
  let storage := write_stacks_blocks state.storage stacks_tenure
  let storage := write_bitcoin_block storage block
  extract_deposit_requests { state with storage := storage } block.txdata

/-- Insert a validated deposit into the in-memory map under its txid
(`entry(txid).or_default().push(deposit)`). -/
def insertDeposit :
    List (Txid × List Deposit) → Deposit → List (Txid × List Deposit)
  | [], d => [(d.outpoint.1, [d])]
  | (k, v) :: rest, d =>
    if k == d.outpoint.1 then (k, v ++ [d]) :: rest
    else (k, v) :: insertDeposit rest d

/-- The per-tick poll `load_latest_deposit_requests`, with the registry
poll and the per-request validation (which discards invalid requests)
abstracted to the resulting list of validated deposits. -/
def load_latest_deposit_requests (state : ObserverState)
    (validated : List Deposit) : ObserverState :=
  { state with deposit_requests := validated.foldl insertDeposit state.deposit_requests }

/-- The observer's `run` on a finite hash stream: per announced hash,
poll the registry, collect the new blocks by walking back up to
`horizon`, and process them in chronological order.  Any error aborts
the run. -/
def observer_run (client : ObserverBitcoinClient) (validated : List Deposit)
    (stacks_tenure : List Nat) (horizon : Nat) :
    List BlockHash → ObserverState → Except Error ObserverState
  | [], state => .ok state
  | h :: rest, state => do
    let state := load_latest_deposit_requests state validated
    let blocks ← next_blocks_to_process client state.storage horizon h
    let state := blocks.foldl (process_bitcoin_block stacks_tenure) state
    observer_run client validated stacks_tenure horizon rest state

/-- An observer state with empty storage and an empty in-memory map. -/
def emptyObserverState : ObserverState :=
  { storage := { bitcoin_blocks := []
                 deposit_requests := []
                 sbtc_transactions := []
                 stacks_headers := []
                 signers_script_pubkeys := [] }
    deposit_requests := [] }

/-! ## Supporting lemmas: the SHA-256 digest has 32 bytes -/

theorem natToBeBytes_length (n len : Nat) : (natToBeBytes n len).length = len := by
  simp [natToBeBytes]

theorem sha256Round_length (st : List Nat) (wk : Nat × Nat) :
    (sha256Round st wk).length = st.length := by
  unfold sha256Round
  split <;> simp

theorem foldl_sha256Round_length (l : List (Nat × Nat)) (st : List Nat) :
    (l.foldl sha256Round st).length = st.length := by
  induction l generalizing st with
  | nil => rfl
  | cons x xs ih => rw [List.foldl_cons, ih, sha256Round_length]

theorem sha256Block_length (st block : List Nat) :
    (sha256Block st block).length = st.length := by
  simp [sha256Block, foldl_sha256Round_length]

theorem foldl_sha256Block_length (l : List (List Nat)) (st : List Nat) :
    (l.foldl sha256Block st).length = st.length := by
  induction l generalizing st with
  | nil => rfl
  | cons x xs ih => rw [List.foldl_cons, ih, sha256Block_length]

theorem flatMap_be4_length (l : List Nat) :
    (l.flatMap (fun x => natToBeBytes x 4)).length = 4 * l.length := by
  induction l with
  | nil => rfl
  | cons x xs ih =>
    simp only [List.flatMap_cons, List.length_append, natToBeBytes_length, ih,
      List.length_cons]
    ring

theorem sha256_length (msg : List Nat) : (sha256 msg).length = 32 := by
  unfold sha256
  rw [flatMap_be4_length, foldl_sha256Block_length]
  rfl

/-! ## Supporting lemmas: evaluating the coordinator election -/

theorem coordinator_public_key_nonempty (tip : List Nat) (keys : List PublicKey)
    (hne : keys ≠ []) :
    coordinator_public_key tip keys =
      .ok (some (keys.getD
        (beToNat ((sha256 tip).take usizeBytes) % keys.length) [])) := by
  have hlen : keys.length ≠ 0 := by
    simpa [List.length_eq_zero] using hne
  have hchunk : firstChunk usizeBytes (sha256 tip) =
      some ((sha256 tip).take usizeBytes) := by
    simp [firstChunk, sha256_length, usizeBytes]
  have hidx : beToNat ((sha256 tip).take usizeBytes) % keys.length < keys.length :=
    Nat.mod_lt _ (Nat.pos_of_ne_zero hlen)
  simp [coordinator_public_key, hchunk, hlen, List.getElem?_eq_getElem hidx,
    List.getD_eq_getElem?_getD, List.getElem?_eq_getElem hidx]

theorem coordinator_public_key_empty (tip : List Nat) :
    coordinator_public_key tip ([] : List PublicKey) =
      .error .panicRemainderByZero := by
  have hchunk : firstChunk usizeBytes (sha256 tip) =
      some ((sha256 tip).take usizeBytes) := by
    simp [firstChunk, sha256_length, usizeBytes]
  simp [coordinator_public_key, hchunk]

/-! ## Claim C1 -/

/-- C1: for every bitcoin chain tip and every non-empty signer set,
`coordinator_public_key` returns `some` of the public key at index
(the first machine-word-sized prefix of `sha256 tip` read as a
big-endian unsigned integer) modulo the signer-set size in the
lexicographically ordered signer set (modelled by its ascending
iteration sequence), and the election is a pure function of the pair
(tip, signer set): equal inputs elect equal coordinators. -/
theorem C1_coordinator_election (tip : List Nat) (keys : List PublicKey)
    (hne : keys ≠ [])
    (_hsorted : keys.Pairwise (fun a b => bytesLt a b = true)) :
    coordinator_public_key tip keys =
      .ok (some (keys.getD
        (beToNat ((sha256 tip).take usizeBytes) % keys.length) [])) ∧
    ∀ tip2 keys2, tip2 = tip → keys2 = keys →
      coordinator_public_key tip2 keys2 = coordinator_public_key tip keys :=
  ⟨coordinator_public_key_nonempty tip keys hne,
   fun _ _ h1 h2 => by rw [h1, h2]⟩

/-- Concrete election data: the chain tip 0x00...01 of the
specification's boundary scenario and three signer keys in ascending
lexicographic order. -/
def tipW : List Nat := List.replicate 31 0 ++ [1]

/-- Three signer public keys, lexicographically sorted. -/
def keysW : List PublicKey := [[2, 10], [2, 11], [3, 5]]

/-- Witness for C1 at the concrete tip and signer set. -/
theorem C1_witness :
    keysW ≠ [] ∧
    keysW.Pairwise (fun a b => bytesLt a b = true) ∧
    (coordinator_public_key tipW keysW =
      .ok (some (keysW.getD
        (beToNat ((sha256 tipW).take usizeBytes) % keysW.length) [])) ∧
    ∀ tip2 keys2, tip2 = tipW → keys2 = keysW →
      coordinator_public_key tip2 keys2 = coordinator_public_key tipW keysW) :=
  ⟨by decide, by decide, C1_coordinator_election tipW keysW (by decide) (by decide)⟩

/-! ## Claim C9 -/

/-- C9: the election is total exactly on non-empty signer sets: a
non-empty set always elects some coordinator, while on the empty set the
Rust expression `index % num_signers` is a remainder by zero, a panic. -/
theorem C9_coordinator_totality (tip : List Nat) (keys : List PublicKey) :
    (keys ≠ [] → ∃ k, coordinator_public_key tip keys = .ok (some k)) ∧
    (keys = [] →
      coordinator_public_key tip keys = .error .panicRemainderByZero) := by
  constructor
  · intro hne
    exact ⟨_, coordinator_public_key_nonempty tip keys hne⟩
  · intro h
    subst h
    exact coordinator_public_key_empty tip

/-- Witness for C9: a singleton signer set elects a coordinator; the
empty signer set panics. -/
theorem C9_witness :
    (∃ k, coordinator_public_key tipW keysW = .ok (some k)) ∧
    coordinator_public_key tipW ([] : List PublicKey) =
      .error .panicRemainderByZero :=
  ⟨(C9_coordinator_totality tipW keysW).1 (by decide),
   (C9_coordinator_totality tipW []).2 rfl⟩

/-! ## Claim C5 -/

theorem check_signer_public_key_eq_true (public_keys : List (Nat × PublicKey))
    (pt : PublicKey) (signer_id : Nat) :
    check_signer_public_key public_keys pt signer_id = true ↔
      public_keys.lookup signer_id = some pt := by
  unfold check_signer_public_key
  cases h : public_keys.lookup signer_id with
  | none => simp
  | some k =>
    show (pt == k) = true ↔ some k = some pt
    simp only [beq_iff_eq, Option.some.injEq]
    exact eq_comm

/-- C5: with the sender's coordinator status computed as
`drive_wsts_state_machine` computes it (`given_key_is_coordinator` on
the current tip), `authenticate_message` accepts a coordinator-role
packet if and only if the sender is the elected coordinator for the
tip, accepts a signer-role packet if and only if the public-key map has
an entry for the packet's `signer_id` equal to the sender's key, and
returns `false` in every other case. -/
theorem C5_authenticate_message (msg : WstsNetMessage)
    (public_keys : List (Nat × PublicKey)) (sender : PublicKey)
    (tip : List Nat) (signer_set : List PublicKey) (sic : Bool)
    (hsic : given_key_is_coordinator sender tip signer_set = .ok sic) :
    authenticate_message msg public_keys sender sic = true ↔
      (isCoordinatorRole msg = true ∧
        coordinator_public_key tip signer_set = .ok (some sender)) ∨
      (∃ signer_id, signerIdOf msg = some signer_id ∧
        public_keys.lookup signer_id = some sender) := by
  have hkey : sic = true ↔
      coordinator_public_key tip signer_set = .ok (some sender) := by
    unfold given_key_is_coordinator at hsic
    cases hco : coordinator_public_key tip signer_set with
    | error e => rw [hco] at hsic; simp [Except.map] at hsic
    | ok r =>
      rw [hco] at hsic
      simp only [Except.map] at hsic
      cases hsic
      simp
  cases msg <;>
    simp [authenticate_message, isCoordinatorRole, signerIdOf,
      check_signer_public_key_eq_true, hkey]

/-- Concrete data for the C5 witness: a signer-role packet whose
signer id is registered with the sender's key. -/
def pkMapW : List (Nat × PublicKey) := [(0, [2, 10]), (1, [2, 11])]

set_option maxRecDepth 100000 in
/-- Witness for C5 at a concrete packet, key map, sender and tip. -/
theorem C5_witness :
    given_key_is_coordinator [2, 11] tipW keysW = .ok false ∧
    (authenticate_message (.nonceResponse 1) pkMapW [2, 11] false = true ↔
      (isCoordinatorRole (.nonceResponse 1) = true ∧
        coordinator_public_key tipW keysW = .ok (some [2, 11])) ∨
      (∃ signer_id, signerIdOf (.nonceResponse 1) = some signer_id ∧
        pkMapW.lookup signer_id = some [2, 11])) :=
  ⟨by decide,
   C5_authenticate_message (.nonceResponse 1) pkMapW [2, 11] tipW keysW false
     (by decide)⟩

/-! ## Claim C4 -/

/-- The loop step of
`construct_and_sign_stacks_sbtc_response_transactions`: handle one
request and count it when it was successfully submitted. -/
def stacks_response_step (acc : SignerWallet × Nat)
    (req : SweptRequestOutcome) : SignerWallet × Nat :=
  ((handle_swept_deposit acc.1 req).1,
   acc.2 + if (handle_swept_deposit acc.1 req).2 then 1 else 0)

theorem construct_and_sign_eq_foldl (account_nonce : Nat)
    (reqs : List SweptRequestOutcome) :
    construct_and_sign_stacks_sbtc_response_transactions account_nonce reqs =
      reqs.foldl stacks_response_step ({ nonce := account_nonce }, 0) := by
  unfold construct_and_sign_stacks_sbtc_response_transactions
  congr 1

theorem handle_swept_deposit_nonce (w : SignerWallet)
    (req : SweptRequestOutcome) :
    (handle_swept_deposit w req).1.nonce =
      w.nonce + (if (handle_swept_deposit w req).2 then 1 else 0) := by
  rcases req with ⟨c, p⟩
  cases c <;> cases p <;> simp [handle_swept_deposit, SignerWallet.new_tx]

theorem foldl_stacks_response_nonce (reqs : List SweptRequestOutcome)
    (acc : SignerWallet × Nat) :
    (reqs.foldl stacks_response_step acc).1.nonce + acc.2 =
      acc.1.nonce + (reqs.foldl stacks_response_step acc).2 := by
  induction reqs generalizing acc with
  | nil => exact Nat.add_comm _ _ |>.symm ▸ rfl
  | cons r rs ih =>
    rw [List.foldl_cons]
    have h2 := ih (stacks_response_step acc r)
    have hstep1 : (stacks_response_step acc r).1.nonce =
        acc.1.nonce + (if (handle_swept_deposit acc.1 r).2 then 1 else 0) := by
      simpa [stacks_response_step] using handle_swept_deposit_nonce acc.1 r
    have hstep2 : (stacks_response_step acc r).2 =
        acc.2 + (if (handle_swept_deposit acc.1 r).2 then 1 else 0) := rfl
    rw [hstep1, hstep2] at h2
    omega

/-- C4: over the swept deposit requests of one tick, starting from the
account nonce fetched once from the Stacks node, every constructed
multisig transaction consumes one nonce and every sign-or-submit
failure decrements the cached nonce by one (saturating), so the wallet
nonce after the tick equals the initial nonce plus the number of
successfully submitted transactions; in particular one successful and
one failing submission starting from nonce N end at N + 1. -/
theorem C4_nonce_accounting (account_nonce : Nat)
    (reqs : List SweptRequestOutcome) :
    (construct_and_sign_stacks_sbtc_response_transactions account_nonce
        reqs).1.nonce =
      account_nonce +
        (construct_and_sign_stacks_sbtc_response_transactions account_nonce
          reqs).2 ∧
    (construct_and_sign_stacks_sbtc_response_transactions account_nonce
        [⟨true, true⟩, ⟨true, false⟩]).1.nonce = account_nonce + 1 := by
  constructor
  · rw [construct_and_sign_eq_foldl]
    have := foldl_stacks_response_nonce reqs ({ nonce := account_nonce }, 0)
    simpa using this
  · simp [construct_and_sign_stacks_sbtc_response_transactions,
      handle_swept_deposit, SignerWallet.new_tx]

/-! ## Claim C8 -/

/-- C8: `get_pending_requests` returns `Ok(None)` exactly when both the
pending accepted deposit list and the pending accepted withdrawal list
are empty; in that case the `SignerBtcState` is never computed, so a
missing signer UTXO cannot cause an error when there are no requests. -/
theorem C8_no_work_iff_empty (client : BitcoinClient) (storage : CoordStorage)
    (aggregate_key : List Nat) (signer_public_keys : List PublicKey)
    (threshold : Nat) (hsize : signer_public_keys.length < 65536) :
    (get_pending_requests client storage aggregate_key signer_public_keys
        threshold = .ok none ↔
      storage.pending_accepted_deposit_requests = [] ∧
        storage.pending_accepted_withdrawal_requests = []) ∧
    (storage.pending_accepted_deposit_requests = [] →
      storage.pending_accepted_withdrawal_requests = [] →
      get_pending_requests client { storage with signer_utxo := none }
        aggregate_key signer_public_keys threshold = .ok none) := by
  have key : ∀ st : CoordStorage,
      get_pending_requests client st aggregate_key signer_public_keys
        threshold = .ok none ↔
      st.pending_accepted_deposit_requests = [] ∧
        st.pending_accepted_withdrawal_requests = [] := by
    intro st
    unfold get_pending_requests
    rcases hd : st.pending_accepted_deposit_requests with _ | ⟨d, ds⟩ <;>
      rcases hw : st.pending_accepted_withdrawal_requests with _ | ⟨w, ws⟩ <;>
        simp only [hsize, if_true, List.map_nil, List.map_cons, List.isEmpty_nil,
          List.isEmpty_cons, Bool.and_true, Bool.and_false, Bool.false_and] <;>
        cases hb : get_btc_state client st aggregate_key <;>
          simp [hb, Except.bind, pure, Except.pure, bind]
  exact ⟨key storage, fun hd hw => (key _).mpr ⟨hd, hw⟩⟩

/-- Concrete data for the C8 witness: a trivial bitcoin client. -/
def clientW : BitcoinClient :=
  { find_mempool_transactions_spending_output := fun _ => []
    get_transaction_fee := fun _ => .ok { fee := 0, vsize := 1 }
    find_mempool_descendants := fun _ => []
    estimate_fee_rate := 1 }

/-- Concrete data for the C8 witness: an empty pending-request store
without a signer UTXO. -/
def storageW : CoordStorage :=
  { pending_accepted_deposit_requests := []
    pending_accepted_withdrawal_requests := []
    deposit_request_signer_votes := fun _ => []
    withdrawal_request_signer_votes := fun _ => []
    signer_utxo := none }

/-- Witness for C8 at the concrete client and store. -/
theorem C8_witness :
    keysW.length < 65536 ∧
    ((get_pending_requests clientW storageW [] keysW 3 = .ok none ↔
      storageW.pending_accepted_deposit_requests = [] ∧
        storageW.pending_accepted_withdrawal_requests = []) ∧
    (storageW.pending_accepted_deposit_requests = [] →
      storageW.pending_accepted_withdrawal_requests = [] →
      get_pending_requests clientW { storageW with signer_utxo := none } []
        keysW 3 = .ok none)) :=
  ⟨by decide, C8_no_work_iff_empty clientW storageW [] keysW 3 (by decide)⟩

/-! ## Claim C2 -/

theorem mapM_fee_pairs (g : Txid → TransactionFees) (l : List Txid) :
    (l.mapM (fun txid =>
      (Except.ok (g txid) : Except Error TransactionFees).map
        (fun fee => (txid, fee)))) =
      Except.ok (l.map (fun t => (t, g t))) := by
  induction l with
  | nil => rfl
  | cons x xs ih =>
    rw [List.mapM_cons, ih]
    rfl

theorem mapM_fee_ok (g : Txid → TransactionFees) (l : List Txid) :
    (l.mapM (fun txid => (Except.ok (g txid) : Except Error TransactionFees))) =
      Except.ok (l.map g) := by
  induction l with
  | nil => rfl
  | cons x xs ih =>
    rw [List.mapM_cons, ih]
    rfl

theorem maxPairStep_map (g : Txid → TransactionFees) (acc : Option Txid)
    (t : Txid) :
    maxPairStep (acc.map (fun t => (t, g t))) (t, g t) =
      Option.map (fun t => (t, g t)) (argmaxStep (fun t => (g t).fee) acc t) := by
  cases acc with
  | none => rfl
  | some a =>
    show (if (g a).fee ≤ (g t).fee then _ else _) = _
    by_cases h : (g a).fee ≤ (g t).fee
    · rw [if_pos h]
      show _ = Option.map _ (if (g a).fee ≤ (g t).fee then some t else some a)
      rw [if_pos h]
      rfl
    · rw [if_neg h]
      show _ = Option.map _ (if (g a).fee ≤ (g t).fee then some t else some a)
      rw [if_neg h]
      rfl

theorem maxByFeeLast_map (g : Txid → TransactionFees) (l : List Txid)
    (acc : Option Txid) :
    (l.map (fun t => (t, g t))).foldl maxPairStep
      (acc.map (fun t => (t, g t))) =
    Option.map (fun t => (t, g t))
      (l.foldl (argmaxStep (fun t => (g t).fee)) acc) := by
  induction l generalizing acc with
  | nil => rfl
  | cons t ts ih =>
    rw [List.map_cons, List.foldl_cons, List.foldl_cons, maxPairStep_map]
    exact ih (argmaxStep (fun t => (g t).fee) acc t)

theorem maxByFeeLast_eq_lastArgmax (g : Txid → TransactionFees) (l : List Txid) :
    maxByFeeLast (l.map (fun t => (t, g t))) =
      Option.map (fun t => (t, g t)) (lastArgmaxBy (fun t => (g t).fee) l) := by
  simpa [maxByFeeLast, lastArgmaxBy] using maxByFeeLast_map g l none

theorem lastArgmaxBy_go_some (key : Txid → Nat) (l : List Txid) (a : Txid) :
    ∃ t, l.foldl (argmaxStep key) (some a) = some t := by
  induction l generalizing a with
  | nil => exact ⟨a, rfl⟩
  | cons x xs ih =>
    rw [List.foldl_cons]
    show ∃ t, xs.foldl (argmaxStep key) (if key a ≤ key x then some x else some a)
      = some t
    by_cases h : key a ≤ key x
    · rw [if_pos h]; exact ih x
    · rw [if_neg h]; exact ih a

theorem lastArgmaxBy_some (key : Txid → Nat) (l : List Txid) (hne : l ≠ []) :
    ∃ t, lastArgmaxBy key l = some t := by
  rcases l with _ | ⟨x, xs⟩
  · exact absurd rfl hne
  · show ∃ t, (x :: xs).foldl (argmaxStep key) none = some t
    rw [List.foldl_cons]
    exact lastArgmaxBy_go_some key xs x

theorem foldl_fee_sum (fs : List TransactionFees) (a b : Nat) :
    fs.foldl (fun acc fees => (acc.1 + fees.fee, acc.2 + fees.vsize)) (a, b) =
      (a + (fs.map (fun f => f.fee)).sum, b + (fs.map (fun f => f.vsize)).sum) := by
  induction fs generalizing a b with
  | nil => simp
  | cons f fs ih =>
    simp only [List.foldl_cons, List.map_cons, List.sum_cons, ih, Prod.mk.injEq]
    omega

/-- C2 amended: the assessment returns `Ok(None)` exactly when no
mempool transaction spends the signer UTXO's outpoint; otherwise (when
the fee lookups succeed) it selects as root the LAST transaction, in
the order the bitcoin port returned them, among those with the highest
fee — not a lexicographic txid tie-break — and returns the fee total
over the root and its mempool descendants together with the
total-over-vsize rate. -/
theorem C2_fee_assessment (client : BitcoinClient) (signer_utxo : SignerUtxo)
    (feeOf : Txid → TransactionFees)
    (hfee : client.get_transaction_fee = fun t => .ok (feeOf t)) :
    (assess_mempool_sweep_transaction_fees client signer_utxo = .ok none ↔
      client.find_mempool_transactions_spending_output signer_utxo.outpoint
        = []) ∧
    (client.find_mempool_transactions_spending_output signer_utxo.outpoint
        ≠ [] →
      ∃ root, lastArgmaxBy (fun t => (feeOf t).fee)
        (client.find_mempool_transactions_spending_output signer_utxo.outpoint)
        = some root) ∧
    (∀ root, lastArgmaxBy (fun t => (feeOf t).fee)
        (client.find_mempool_transactions_spending_output signer_utxo.outpoint)
        = some root →
      assess_mempool_sweep_transaction_fees client signer_utxo =
        .ok (some (sweepPackageFees client feeOf root))) := by
  rcases hL : client.find_mempool_transactions_spending_output signer_utxo.outpoint
    with _ | ⟨x, xs⟩
  · refine ⟨by simp [assess_mempool_sweep_transaction_fees, hL, pure, Except.pure], ?_, ?_⟩
    · intro h; exact absurd rfl h
    · intro root hroot
      simp [lastArgmaxBy] at hroot
  · have hmax := maxByFeeLast_eq_lastArgmax feeOf (x :: xs)
    obtain ⟨r0, hr0⟩ := lastArgmaxBy_some (fun t => (feeOf t).fee) (x :: xs)
      (by simp)
    have heval : assess_mempool_sweep_transaction_fees client signer_utxo =
        .ok (some (sweepPackageFees client feeOf r0)) := by
      unfold assess_mempool_sweep_transaction_fees
      rw [hL, hfee]
      rw [hr0] at hmax
      simp only [List.isEmpty_cons, Bool.false_eq_true, if_false, bind,
        Except.bind, mapM_fee_pairs, maxByFeeLast, Option.map_some] at hmax ⊢
      rw [show (List.foldl _ none (List.map (fun t => (t, feeOf t)) (x :: xs)))
          = some (r0, feeOf r0) from hmax]
      simp only [mapM_fee_ok, foldl_fee_sum, sweepPackageFees, pure, Except.pure,
        List.map_map, Function.comp]
      rfl
    refine ⟨?_, fun _ => ⟨r0, hr0⟩, ?_⟩
    · rw [heval]; simp [hL]
    · intro root hroot
      rw [hroot] at hr0
      cases hr0
      exact heval

/-- The fee table of the C2 counterexample: three transactions `[1]`,
`[2]`, `[3]` spend the signer outpoint with EQUAL fees, and each has one
distinct descendant (`[11]`, `[12]`, `[13]`) with a different fee, so
the choice of root is observable in the returned total. -/
def feeOfC2 : Txid → TransactionFees := fun t =>
  if t = [1] then { fee := 10, vsize := 10 }
  else if t = [2] then { fee := 10, vsize := 10 }
  else if t = [3] then { fee := 10, vsize := 10 }
  else if t = [11] then { fee := 1, vsize := 10 }
  else if t = [12] then { fee := 2, vsize := 10 }
  else { fee := 3, vsize := 10 }

/-- The mempool view of the C2 counterexample: the port returns the
spenders in the order `[[1], [3], [2]]`. -/
def clientC2 : BitcoinClient :=
  { find_mempool_transactions_spending_output := fun _ => [[1], [3], [2]]
    get_transaction_fee := fun t => .ok (feeOfC2 t)
    find_mempool_descendants := fun t =>
      if t = [1] then [[11]] else if t = [2] then [[12]]
      else if t = [3] then [[13]] else []
    estimate_fee_rate := 1 }

/-- The signer UTXO of the C2 counterexample. -/
def utxoC2 : SignerUtxo := { outpoint := ([9], 0), amount := 100 }

/-- C2 counterexample: with three equal-fee spenders returned by the
port in the order `[[1], [3], [2]]`, the source picks the LAST maximal
element, the root `[2]` (total 10 + 2 = 12), whereas the claim's
lexicographic tie-break picks `[1]` (total 11) on the
smallest-txid reading and `[3]` (total 13) on the largest-txid reading;
the claim's predicted result differs from the code's on either
reading. -/
theorem C2_counterexample :
    (assess_mempool_sweep_transaction_fees clientC2 utxoC2).map
        (fun r => r.map Fees.total) = .ok (some 12) ∧
    (assess_fees_claimC2 true clientC2 utxoC2).map
        (fun r => r.map Fees.total) = .ok (some 11) ∧
    (assess_fees_claimC2 false clientC2 utxoC2).map
        (fun r => r.map Fees.total) = .ok (some 13) ∧
    assess_mempool_sweep_transaction_fees clientC2 utxoC2 ≠
      assess_fees_claimC2 true clientC2 utxoC2 ∧
    assess_mempool_sweep_transaction_fees clientC2 utxoC2 ≠
      assess_fees_claimC2 false clientC2 utxoC2 := by
  have h1 : (assess_mempool_sweep_transaction_fees clientC2 utxoC2).map
      (fun r => r.map Fees.total) = .ok (some 12) := by decide
  have h2 : (assess_fees_claimC2 true clientC2 utxoC2).map
      (fun r => r.map Fees.total) = .ok (some 11) := by decide
  have h3 : (assess_fees_claimC2 false clientC2 utxoC2).map
      (fun r => r.map Fees.total) = .ok (some 13) := by decide
  refine ⟨h1, h2, h3, ?_, ?_⟩
  · intro heq
    rw [heq, h2] at h1
    exact absurd h1 (by decide)
  · intro heq
    rw [heq, h3] at h1
    exact absurd h1 (by decide)

/-- Witness for C2 at the concrete mempool view of the
counterexample. -/
theorem C2_witness :
    (clientC2.get_transaction_fee = fun t => Except.ok (feeOfC2 t)) ∧
    ((assess_mempool_sweep_transaction_fees clientC2 utxoC2 = .ok none ↔
      clientC2.find_mempool_transactions_spending_output utxoC2.outpoint = []) ∧
    (clientC2.find_mempool_transactions_spending_output utxoC2.outpoint ≠ [] →
      ∃ root, lastArgmaxBy (fun t => (feeOfC2 t).fee)
        (clientC2.find_mempool_transactions_spending_output utxoC2.outpoint) =
        some root) ∧
    (∀ root, lastArgmaxBy (fun t => (feeOfC2 t).fee)
        (clientC2.find_mempool_transactions_spending_output utxoC2.outpoint) =
        some root →
      assess_mempool_sweep_transaction_fees clientC2 utxoC2 =
        .ok (some (sweepPackageFees clientC2 feeOfC2 root)))) :=
  ⟨rfl, C2_fee_assessment clientC2 utxoC2 feeOfC2 rfl⟩

/-! ## Claim C10 -/

/-- C10 counterexample: the loop body runs `self.context.signal(...)?`
after each handled `NewRequestsHandled`; when that `Context::signal`
call (implemented outside src/ and returning a `Result`) fails, the
received `NewRequestsHandled` is NOT followed by a `TenureCompleted`
(zero are delivered) and the loop terminates with the propagated error,
neither on a `Shutdown` command nor on stream closure. -/
theorem C10_counterexample :
    coordinatorRun [CoordSignal.newRequestsHandled] [Except.ok ()]
        [Except.error Error.signalSend] = (0, Except.error Error.signalSend) ∧
    (coordinatorRun [CoordSignal.newRequestsHandled] [Except.ok ()]
        [Except.error Error.signalSend]).2 ≠ .ok RunExit.streamClosed ∧
    (coordinatorRun [CoordSignal.newRequestsHandled] [Except.ok ()]
        [Except.error Error.signalSend]).2 ≠ .ok RunExit.shutdownCommand := by
  refine ⟨rfl, by decide, by decide⟩

/-- C10 amended: provided every `TenureCompleted` emission succeeds,
each received `NewRequestsHandled` before the first `Shutdown` is
followed by exactly one delivered `TenureCompleted`, regardless of the
`process_new_blocks` results (an error tick does not terminate the
loop), and the loop exits only on a `Shutdown` command or on closure of
the signal stream. -/
theorem C10_tenure_completed (stream : List CoordSignal)
    (ps ss : List (Except Error Unit))
    (hss : ∀ r ∈ ss, r = Except.ok ()) :
    coordinatorRun stream ps ss =
      ((stream.takeWhile (fun s => s != CoordSignal.shutdown)).count
          CoordSignal.newRequestsHandled,
       Except.ok (if CoordSignal.shutdown ∈ stream then RunExit.shutdownCommand
         else RunExit.streamClosed)) := by
  induction stream generalizing ps ss with
  | nil => rfl
  | cons s rest ih =>
    cases s with
    | shutdown =>
      simp +decide [coordinatorRun, List.filter_cons, run_loop_message_filter,
        coordinatorRunLoop, List.takeWhile_cons, List.mem_cons]
    | p2pPublish =>
      have h := ih ps ss hss
      simp only [coordinatorRun] at h ⊢
      simp +decide [List.filter_cons, run_loop_message_filter,
        List.takeWhile_cons, List.count_cons, List.mem_cons, h]
    | otherEvent =>
      have h := ih ps ss hss
      simp only [coordinatorRun] at h ⊢
      simp +decide [List.filter_cons, run_loop_message_filter,
        List.takeWhile_cons, List.count_cons, List.mem_cons, h]
    | newRequestsHandled =>
      have hhead : ss.head?.getD (Except.ok ()) = Except.ok () := by
        cases ss with
        | nil => rfl
        | cons r rs => exact hss r (List.mem_cons_self r rs)
      have htail : ∀ r ∈ ss.tail, r = Except.ok () := by
        intro r hr
        cases ss with
        | nil => cases hr
        | cons r0 rs => exact hss r (List.mem_cons_of_mem r0 hr)
      have h := ih ps.tail ss.tail htail
      simp only [coordinatorRun] at h
      simp +decide [coordinatorRun, List.filter_cons, run_loop_message_filter,
        coordinatorRunLoop, hhead, h, List.takeWhile_cons, List.count_cons,
        List.mem_cons]

/-- Witness for C10 at a concrete stream with one handled signal, one
failing tick and a shutdown. -/
theorem C10_witness :
    (∀ r ∈ ([Except.ok (), Except.ok ()] : List (Except Error Unit)),
      r = Except.ok ()) ∧
    coordinatorRun
        [CoordSignal.otherEvent, CoordSignal.newRequestsHandled,
         CoordSignal.shutdown, CoordSignal.newRequestsHandled]
        [Except.error Error.noChainTip]
        ([Except.ok (), Except.ok ()] : List (Except Error Unit)) =
      (([CoordSignal.otherEvent, CoordSignal.newRequestsHandled,
         CoordSignal.shutdown, CoordSignal.newRequestsHandled].takeWhile
            (fun s => s != CoordSignal.shutdown)).count
          CoordSignal.newRequestsHandled,
       Except.ok (if CoordSignal.shutdown ∈
            [CoordSignal.otherEvent, CoordSignal.newRequestsHandled,
             CoordSignal.shutdown, CoordSignal.newRequestsHandled]
          then RunExit.shutdownCommand else RunExit.streamClosed)) :=
  ⟨by decide,
   C10_tenure_completed _ [Except.error Error.noChainTip] _ (by decide)⟩

/-! ## Claim C7 -/

/-- C7: `extract_sbtc_transactions` persists exactly the transactions
with at least one output paying a stored signer script-pubkey, each
encoded and bound to the given block hash, and a block with one matching
and one non-matching transaction yields exactly one persisted row. -/
theorem C7_sbtc_scan (st : ObserverStorage) (block_hash : BlockHash)
    (txs : List TxModel) :
    (∀ r, r ∈ (extract_sbtc_transactions st block_hash txs).sbtc_transactions ↔
      r ∈ st.sbtc_transactions ∨
        ∃ tx, tx ∈ txs ∧
          (∃ o, o ∈ tx.outputs ∧ o ∈ st.signers_script_pubkeys) ∧
          r = { txid := tx.txid, tx := tx.bytes,
                tx_type := TransactionType.sbtcTransaction,
                block_hash := block_hash }) ∧
    (∀ tx0 tx1, tx_spends_to_signers st.signers_script_pubkeys tx0 = true →
      tx_spends_to_signers st.signers_script_pubkeys tx1 = false →
      (extract_sbtc_transactions st block_hash [tx0, tx1]).sbtc_transactions =
        st.sbtc_transactions ++
          [{ txid := tx0.txid, tx := tx0.bytes,
             tx_type := TransactionType.sbtcTransaction,
             block_hash := block_hash }]) := by
  constructor
  · intro r
    simp only [extract_sbtc_transactions, List.mem_append, List.mem_map,
      List.mem_filter, tx_spends_to_signers, List.any_eq_true,
      List.contains, List.elem_iff]
    constructor
    · rintro (h | ⟨tx, ⟨htx, o, ho, hos⟩, hr⟩)
      · exact Or.inl h
      · exact Or.inr ⟨tx, htx, ⟨o, ho, hos⟩, hr.symm⟩
    · rintro (h | ⟨tx, htx, ⟨o, ho, hos⟩, hr⟩)
      · exact Or.inl h
      · exact Or.inr ⟨tx, ⟨htx, o, ho, hos⟩, hr.symm⟩
  · intro tx0 tx1 hm0 hm1
    simp [extract_sbtc_transactions, List.filter_cons, hm0, hm1]

/-- The storage of the C7 witness, holding the specification's signer
script-pubkey `[01 02 03 04]`. -/
def stC7 : ObserverStorage :=
  { bitcoin_blocks := []
    deposit_requests := []
    sbtc_transactions := []
    stacks_headers := []
    signers_script_pubkeys := [[1, 2, 3, 4]] }

/-- A transaction paying the signer script. -/
def txMatchW : TxModel :=
  { txid := [7], outputs := [[5], [1, 2, 3, 4]], bytes := [222] }

/-- A transaction not paying any signer script. -/
def txOtherW : TxModel := { txid := [8], outputs := [[9]], bytes := [111] }

/-- Witness for C7 at the concrete one-matching-one-not block. -/
theorem C7_witness :
    tx_spends_to_signers stC7.signers_script_pubkeys txMatchW = true ∧
    tx_spends_to_signers stC7.signers_script_pubkeys txOtherW = false ∧
    (extract_sbtc_transactions stC7 42 [txMatchW, txOtherW]).sbtc_transactions =
      stC7.sbtc_transactions ++
        [{ txid := txMatchW.txid, tx := txMatchW.bytes,
           tx_type := TransactionType.sbtcTransaction, block_hash := 42 }] :=
  ⟨by decide, by decide,
   (C7_sbtc_scan stC7 42 [txMatchW, txOtherW]).2 txMatchW txOtherW
     (by decide) (by decide)⟩

/-! ## Claim C6: association-list lemmas for the in-memory map -/

theorem lookup_eq_none_of_not_mem_keys (m : List (Txid × List Deposit))
    (k : Txid) (h : k ∉ m.map Prod.fst) : m.lookup k = none := by
  induction m with
  | nil => rfl
  | cons e rest ih =>
    rcases e with ⟨k2, v⟩
    simp only [List.map_cons, List.mem_cons, not_or] at h
    have hb : (k == k2) = false := beq_eq_false_iff_ne.mpr h.1
    simp [List.lookup, hb, ih h.2]

theorem removeKey_fst (m : List (Txid × List Deposit)) (k : Txid) :
    (removeKey m k).1 = m.lookup k := by
  induction m with
  | nil => rfl
  | cons e rest ih =>
    rcases e with ⟨k2, v⟩
    by_cases h : k2 = k
    · subst h
      simp [removeKey, List.lookup]
    · have hb : (k == k2) = false := beq_eq_false_iff_ne.mpr (Ne.symm h)
      simp [removeKey, List.lookup, h, hb, ih]

theorem removeKey_snd_sublist (m : List (Txid × List Deposit)) (k : Txid) :
    (removeKey m k).2.Sublist m := by
  induction m with
  | nil => simp [removeKey]
  | cons e rest ih =>
    rcases e with ⟨k2, v⟩
    by_cases h : k2 = k
    · subst h
      simp only [removeKey, if_pos rfl]
      exact List.sublist_cons_self _ _
    · simp only [removeKey, if_neg h]
      exact ih.cons₂ _

theorem removeKey_snd_keys_nodup (m : List (Txid × List Deposit)) (k : Txid)
    (hnd : (m.map Prod.fst).Nodup) : ((removeKey m k).2.map Prod.fst).Nodup :=
  hnd.sublist ((removeKey_snd_sublist m k).map Prod.fst)

theorem removeKey_snd_lookup_self (m : List (Txid × List Deposit)) (k : Txid)
    (hnd : (m.map Prod.fst).Nodup) : (removeKey m k).2.lookup k = none := by
  induction m with
  | nil => rfl
  | cons e rest ih =>
    rcases e with ⟨k2, v⟩
    simp only [List.map_cons, List.nodup_cons] at hnd
    by_cases h : k2 = k
    · subst h
      simp only [removeKey, if_pos rfl]
      exact lookup_eq_none_of_not_mem_keys rest k2 hnd.1
    · have hb : (k == k2) = false := beq_eq_false_iff_ne.mpr (Ne.symm h)
      simp only [removeKey, if_neg h]
      simp [List.lookup, hb, ih hnd.2]

theorem removeKey_snd_lookup_ne (m : List (Txid × List Deposit)) (k t : Txid)
    (h : t ≠ k) : (removeKey m k).2.lookup t = m.lookup t := by
  induction m with
  | nil => rfl
  | cons e rest ih =>
    rcases e with ⟨k2, v⟩
    by_cases h2 : k2 = k
    · subst h2
      simp only [removeKey, if_pos rfl]
      have hb : (t == k2) = false := beq_eq_false_iff_ne.mpr h
      simp [List.lookup, hb]
    · simp only [removeKey, if_neg h2]
      by_cases h3 : t = k2
      · subst h3
        simp [List.lookup]
      · have hb : (t == k2) = false := beq_eq_false_iff_ne.mpr h3
        simp [List.lookup, hb, ih]

theorem drainDeposits_lookup (txs : List TxModel)
    (m : List (Txid × List Deposit)) (hnd : (m.map Prod.fst).Nodup) (t : Txid) :
    (drainDeposits txs m).2.lookup t =
      if txs.any (fun tx => tx.txid == t) then none else m.lookup t := by
  induction txs generalizing m with
  | nil => simp [drainDeposits]
  | cons tx txs ih =>
    have hnd2 := removeKey_snd_keys_nodup m tx.txid hnd
    simp only [drainDeposits, List.any_cons]
    rw [ih _ hnd2]
    by_cases ht : tx.txid = t
    · subst ht
      by_cases ha : txs.any (fun tx2 => tx2.txid == tx.txid) = true
      · simp [ha]
      · simp only [Bool.not_eq_true] at ha
        simp [ha, removeKey_snd_lookup_self m tx.txid hnd]
    · have hbeq : (tx.txid == t) = false := by simp [ht]
      simp [hbeq, removeKey_snd_lookup_ne m tx.txid t (Ne.symm ht)]

theorem drainDeposits_mem (txs : List TxModel)
    (m : List (Txid × List Deposit)) (hnd : (m.map Prod.fst).Nodup)
    (d : Deposit) :
    d ∈ (drainDeposits txs m).1 ↔
      ∃ t l, txs.any (fun tx => tx.txid == t) = true ∧
        m.lookup t = some l ∧ d ∈ l := by
  induction txs generalizing m with
  | nil => simp [drainDeposits]
  | cons tx txs ih =>
    have hnd2 := removeKey_snd_keys_nodup m tx.txid hnd
    simp only [drainDeposits, List.mem_append]
    rw [ih _ hnd2]
    constructor
    · rintro (hin | ⟨t, l, hany, hl, hd⟩)
      · rcases hlk : (removeKey m tx.txid).1 with _ | l0
        · rw [hlk] at hin
          cases hin
        · rw [hlk] at hin
          refine ⟨tx.txid, l0, by simp, ?_, hin⟩
          rw [← removeKey_fst]
          exact hlk
      · have ht : t ≠ tx.txid := by
          intro he
          subst he
          rw [removeKey_snd_lookup_self m tx.txid hnd] at hl
          cases hl
        refine ⟨t, l, ?_, ?_, hd⟩
        · simp [hany]
        · rw [← removeKey_snd_lookup_ne m tx.txid t ht]
          exact hl
    · rintro ⟨t, l, hany, hl, hd⟩
      by_cases ht : t = tx.txid
      · subst ht
        left
        rw [removeKey_fst m tx.txid, hl]
        simpa using hd
      · right
        have hany2 : txs.any (fun tx2 => tx2.txid == t) = true := by
          simp only [List.any_cons, Bool.or_eq_true, beq_iff_eq] at hany
          rcases hany with h | h
          · exact absurd h.symm ht
          · exact h
        refine ⟨t, l, hany2, ?_, hd⟩
        rw [removeKey_snd_lookup_ne m tx.txid t ht]
        exact hl

theorem any_outpoint_match_iff (l : List DbDepositRequest)
    (row : DbDepositRequest) :
    (l.any (fun r => r.txid == row.txid && r.output_index == row.output_index)
      = true) ↔ row ∈ l := by
  rw [List.any_eq_true]
  constructor
  · rintro ⟨r, hr, hp⟩
    simp only [Bool.and_eq_true, beq_iff_eq] at hp
    rcases r with ⟨a, b⟩
    rcases row with ⟨c, e⟩
    obtain ⟨h1, h2⟩ := hp
    cases h1
    cases h2
    exact hr
  · intro h
    exact ⟨row, h, by simp⟩

theorem write_deposit_requests_mem (rows : List DbDepositRequest)
    (st : ObserverStorage) (row : DbDepositRequest) :
    row ∈ (write_deposit_requests st rows).deposit_requests ↔
      row ∈ st.deposit_requests ∨ row ∈ rows := by
  induction rows generalizing st with
  | nil => simp [write_deposit_requests]
  | cons r rs ih =>
    have hstep : ∀ st2 : ObserverStorage,
        row ∈ (if st2.deposit_requests.any
            (fun x => x.txid == r.txid && x.output_index == r.output_index)
          then st2
          else { st2 with deposit_requests := st2.deposit_requests ++ [r] }
          ).deposit_requests ↔ row ∈ st2.deposit_requests ∨ row = r := by
      intro st2
      by_cases h : st2.deposit_requests.any
          (fun x => x.txid == r.txid && x.output_index == r.output_index) = true
      · rw [if_pos h]
        have hr : r ∈ st2.deposit_requests := (any_outpoint_match_iff _ r).mp h
        constructor
        · exact Or.inl
        · rintro (h2 | h2)
          · exact h2
          · exact h2 ▸ hr
      · rw [if_neg h]
        simp
    rw [show write_deposit_requests st (r :: rs) =
        write_deposit_requests
          (if st.deposit_requests.any
              (fun x => x.txid == r.txid && x.output_index == r.output_index)
            then st
            else { st with deposit_requests := st.deposit_requests ++ [r] }) rs
      from rfl]
    rw [ih, hstep st]
    simp only [List.mem_cons]
    tauto

/-- C6: `extract_deposit_requests` removes from the in-memory map
exactly the entries whose txid occurs in the given transactions, leaves
every other entry unchanged, writes exactly the removed deposits as rows
keyed by their outpoints, and on the single-deposit scenario writes one
row keyed (txid, 0) and leaves the map empty. -/
theorem C6_extract_deposit_requests (state : ObserverState) (txs : List TxModel)
    (hnd : (state.deposit_requests.map Prod.fst).Nodup) :
    (∀ t, (extract_deposit_requests state txs).deposit_requests.lookup t =
      if txs.any (fun tx => tx.txid == t) then none
      else state.deposit_requests.lookup t) ∧
    (∀ row,
      row ∈ (extract_deposit_requests state txs).storage.deposit_requests ↔
      row ∈ state.storage.deposit_requests ∨
        ∃ t l d, txs.any (fun tx => tx.txid == t) = true ∧
          state.deposit_requests.lookup t = some l ∧ d ∈ l ∧
          depositRequestRow d = row) ∧
    (∀ d tx, tx.txid = d.outpoint.1 → d.outpoint.2 = 0 →
      (extract_deposit_requests
          { storage := emptyObserverState.storage
            deposit_requests := [(d.outpoint.1, [d])] }
          [tx]).storage.deposit_requests =
        [{ txid := d.outpoint.1, output_index := 0 }] ∧
      (extract_deposit_requests
          { storage := emptyObserverState.storage
            deposit_requests := [(d.outpoint.1, [d])] }
          [tx]).deposit_requests = []) := by
  refine ⟨?_, ?_, ?_⟩
  · intro t
    exact drainDeposits_lookup txs state.deposit_requests hnd t
  · intro row
    rw [show (extract_deposit_requests state txs).storage =
        write_deposit_requests state.storage
          ((drainDeposits txs state.deposit_requests).1.map depositRequestRow)
      from rfl]
    rw [write_deposit_requests_mem]
    simp only [List.mem_map]
    constructor
    · rintro (h | ⟨d, hd, hrow⟩)
      · exact Or.inl h
      · obtain ⟨t, l, hany, hl, hdl⟩ :=
          (drainDeposits_mem txs state.deposit_requests hnd d).mp hd
        exact Or.inr ⟨t, l, d, hany, hl, hdl, hrow⟩
    · rintro (h | ⟨t, l, d, hany, hl, hdl, hrow⟩)
      · exact Or.inl h
      · exact Or.inr ⟨d,
          (drainDeposits_mem txs state.deposit_requests hnd d).mpr
            ⟨t, l, hany, hl, hdl⟩, hrow⟩
  · intro d tx htx h0
    constructor
    · simp [extract_deposit_requests, drainDeposits, removeKey, htx,
        write_deposit_requests, depositRequestRow, emptyObserverState, h0]
    · simp [extract_deposit_requests, drainDeposits, removeKey, htx]

/-- The transaction of the C6 witness deposit. -/
def txDepW : TxModel := { txid := [5], outputs := [[6]], bytes := [] }

/-- The validated deposit of the C6 witness, at outpoint ([5], 0). -/
def dW : Deposit := { tx := txDepW, outpoint := ([5], 0) }

/-- The observer state of the C6 witness: one map entry under txid [5]. -/
def stateC6 : ObserverState :=
  { storage := emptyObserverState.storage
    deposit_requests := [(([5] : Txid), [dW])] }

/-- Witness for C6 at the single-deposit scenario. -/
theorem C6_witness :
    (stateC6.deposit_requests.map Prod.fst).Nodup ∧
    ((extract_deposit_requests
        { storage := emptyObserverState.storage
          deposit_requests := [(dW.outpoint.1, [dW])] }
        [txDepW]).storage.deposit_requests =
      [{ txid := dW.outpoint.1, output_index := 0 }] ∧
    (extract_deposit_requests
        { storage := emptyObserverState.storage
          deposit_requests := [(dW.outpoint.1, [dW])] }
        [txDepW]).deposit_requests = []) :=
  ⟨by decide,
   (C6_extract_deposit_requests stateC6 [txDepW] (by decide)).2.2 dW txDepW
     (by decide) (by decide)⟩

/-! ## Claim C3 -/

/-- The two-block bitcoin port of the C3 counterexample: exactly the
blocks with hashes 0 and 1 are fetchable, block 1's parent is block 0,
and block 0's parent hash 2 designates no fetchable block. -/
def clientC3 : ObserverBitcoinClient :=
  { get_block := fun h =>
      if h = 0 then some { hash := 0, parent := 2, height := 5, txdata := [] }
      else if h = 1 then some { hash := 1, parent := 0, height := 6, txdata := [] }
      else none }

/-- C3 counterexample: feeding the hash stream [H₀, H₁] with
`horizon = 1` into an empty store persists BOTH blocks (H₀ is processed
as its own stream element before H₁ arrives), not only H₁ as the claim
states. -/
theorem C3_counterexample :
    (observer_run clientC3 [] [] 1 [0, 1] emptyObserverState).map
        (fun st => st.storage.bitcoin_blocks.map (fun b => b.block_hash)) =
      .ok [0, 1] ∧
    (Except.ok [0, 1] : Except Error (List BlockHash)) ≠ .ok [1] := by
  exact ⟨by decide, by decide⟩

/-- C3 amended: on the stream [H₀, H₁] (H₁'s parent H₀, parents
otherwise unknown) from an empty store, `horizon = 1` persists BOTH
blocks in parent-first order, H₀ from its own stream element and then
H₁; with `horizon = 2` the walk-back from H₀ asks the port for H₀'s
parent G, so when only H₀ and H₁ are fetchable the run fails with
`MissingBlock` and persists nothing, while when G is fetchable too the
run persists G, H₀, H₁ in parent-first order. -/
theorem C3_backfill (h0 h1 g gg : BlockHash) (n0 n1 ng : Nat)
    (hne : h0 ≠ h1) (hg0 : g ≠ h0) (hg1 : g ≠ h1) :
    (observer_run
        { get_block := fun h =>
            if h = h0 then
              some { hash := h0, parent := g, height := n0, txdata := [] }
            else if h = h1 then
              some { hash := h1, parent := h0, height := n1, txdata := [] }
            else none }
        [] [] 1 [h0, h1] emptyObserverState).map
      (fun st => st.storage.bitcoin_blocks.map (fun b => b.block_hash)) =
      .ok [h0, h1] ∧
    observer_run
        { get_block := fun h =>
            if h = h0 then
              some { hash := h0, parent := g, height := n0, txdata := [] }
            else if h = h1 then
              some { hash := h1, parent := h0, height := n1, txdata := [] }
            else none }
        [] [] 2 [h0, h1] emptyObserverState = .error .missingBlock ∧
    (observer_run
        { get_block := fun h =>
            if h = h0 then
              some { hash := h0, parent := g, height := n0, txdata := [] }
            else if h = h1 then
              some { hash := h1, parent := h0, height := n1, txdata := [] }
            else if h = g then
              some { hash := g, parent := gg, height := ng, txdata := [] }
            else none }
        [] [] 2 [h0, h1] emptyObserverState).map
      (fun st => st.storage.bitcoin_blocks.map (fun b => b.block_hash)) =
      .ok [g, h0, h1] := by
  refine ⟨?_, ?_, ?_⟩ <;>
    simp [observer_run, load_latest_deposit_requests,
      next_blocks_to_process, next_blocks_to_process_go,
      have_already_processed_block, process_bitcoin_block,
      write_stacks_blocks, write_bitcoin_block, write_bitcoin_block_row,
      extract_sbtc_transactions, extract_deposit_requests, drainDeposits,
      write_deposit_requests, tx_spends_to_signers, emptyObserverState,
      hne, Ne.symm hne, hg0, Ne.symm hg0, hg1, Ne.symm hg1,
      bind, Except.bind, pure, Except.pure, Except.map]

/-- Witness for C3 at the concrete hashes 0, 1, 2, 3. -/
theorem C3_witness :
    (0 : BlockHash) ≠ 1 ∧ (2 : BlockHash) ≠ 0 ∧ (2 : BlockHash) ≠ 1 ∧
    ((observer_run
        { get_block := fun h =>
            if h = 0 then
              some { hash := 0, parent := 2, height := 5, txdata := [] }
            else if h = 1 then
              some { hash := 1, parent := 0, height := 6, txdata := [] }
            else none }
        [] [] 1 [0, 1] emptyObserverState).map
      (fun st => st.storage.bitcoin_blocks.map (fun b => b.block_hash)) =
      .ok [0, 1] ∧
    observer_run
        { get_block := fun h =>
            if h = 0 then
              some { hash := 0, parent := 2, height := 5, txdata := [] }
            else if h = 1 then
              some { hash := 1, parent := 0, height := 6, txdata := [] }
            else none }
        [] [] 2 [0, 1] emptyObserverState = .error .missingBlock ∧
    (observer_run
        { get_block := fun h =>
            if h = 0 then
              some { hash := 0, parent := 2, height := 5, txdata := [] }
            else if h = 1 then
              some { hash := 1, parent := 0, height := 6, txdata := [] }
            else if h = 2 then
              some { hash := 2, parent := 3, height := 4, txdata := [] }
            else none }
        [] [] 2 [0, 1] emptyObserverState).map
      (fun st => st.storage.bitcoin_blocks.map (fun b => b.block_hash)) =
      .ok [2, 0, 1]) :=
  ⟨by decide, by decide, by decide,
   C3_backfill 0 1 2 3 5 6 4 (by decide) (by decide) (by decide)⟩

end SbtcSigner
